import Mathlib

/-!
Verification of the argument-rewriting engine of the keyway CLI
(`internal/cmd/docker.go`).

The engine is embedded shallowly:

* CLI token sequences are `List String`;
* the Go maps `map[string]string` for secrets and user overrides are
  association lists `List (String × String)`; a Go `range` iteration over a
  map visits its entries in some order, so theorems quantify over the list
  (every possible iteration order is some list);
* the process runner call `RunCommand(name, args, env)` is reified as the
  `RunCall` structure (the engine never inspects its result beyond
  propagating it);
* the compose branch's `os.CreateTemp` outcome is a parameter of type
  `Except String String` (error, or the fresh file's path), and the outcome
  of each `fmt.Fprintf` line write — whose error value the Go code discards —
  is a parameter `writeOk : String → Bool` keyed by the secret's name; a
  failed write contributes nothing to the file's content.
-/

namespace Keyway

/-- Character-list version of Go `strings.HasPrefix`. -/
def listStarts : List Char → List Char → Bool
  | [], _ => true
  | _ :: _, [] => false
  | p :: ps, s :: ss => p = s && listStarts ps ss

/-- Go `strings.HasPrefix s p`. -/
def strStarts (s p : String) : Bool := listStarts p.data s.data

/-- Go `strings.Contains s "="` (the needle is a single character). -/
def hasEq (s : String) : Bool := s.data.contains '='

/-- Go `strings.TrimPrefix s p` in a context where `HasPrefix s p` is known:
drop the first `n = p.length` characters. -/
def strAfter (s : String) (n : Nat) : String := String.mk (s.data.drop n)

/-- The `flagsWithValue` table of `findImagePosition`: the docker `run` flags
that consume the following token as their value (transcribed verbatim from
the source map literal; map lookup is list membership). -/
def flagsWithValue : List String :=
  ["-a", "--attach",
   "--add-host",
   "--blkio-weight",
   "--blkio-weight-device",
   "--cap-add",
   "--cap-drop",
   "--cgroup-parent",
   "--cgroupns",
   "--cidfile",
   "--cpu-count",
   "--cpu-percent",
   "--cpu-period",
   "--cpu-quota",
   "--cpu-rt-period",
   "--cpu-rt-runtime",
   "--cpu-shares", "-c",
   "--cpus",
   "--cpuset-cpus",
   "--cpuset-mems",
   "--device",
   "--device-cgroup-rule",
   "--device-read-bps",
   "--device-read-iops",
   "--device-write-bps",
   "--device-write-iops",
   "--dns",
   "--dns-option",
   "--dns-search",
   "--domainname",
   "--entrypoint",
   "-e", "--env",
   "--env-file",
   "--expose",
   "--gpus",
   "--group-add",
   "--health-cmd",
   "--health-interval",
   "--health-retries",
   "--health-start-period",
   "--health-timeout",
   "-h", "--hostname",
   "--ip",
   "--ip6",
   "--ipc",
   "--isolation",
   "--kernel-memory",
   "-l", "--label",
   "--label-file",
   "--link",
   "--link-local-ip",
   "--log-driver",
   "--log-opt",
   "--mac-address",
   "-m", "--memory",
   "--memory-reservation",
   "--memory-swap",
   "--memory-swappiness",
   "--mount",
   "--name",
   "--network", "--net",
   "--network-alias", "--net-alias",
   "--oom-score-adj",
   "--pid",
   "--pids-limit",
   "--platform",
   "-p", "--publish",
   "--pull",
   "--restart",
   "--runtime",
   "--security-opt",
   "--shm-size",
   "--stop-signal",
   "--stop-timeout",
   "--storage-opt",
   "--sysctl",
   "--tmpfs",
   "--ulimit",
   "-u", "--user",
   "--userns",
   "--uts",
   "-v", "--volume",
   "--volume-driver",
   "--volumes-from",
   "-w", "--workdir"]

/-- Membership test `flagsWithValue[arg]` of the Go map literal. -/
def isFlagWithValue (s : String) : Bool := flagsWithValue.contains s

/-- The cursor loop of `findImagePosition`: `i` is the current index, the
list argument is the remaining suffix of `args`.  Mirrors the Go loop body:
a token not starting with `-` is the image (return `i`); a flag containing
`=` is self-contained (`i+1`); a flag in the arity table skips its value
(`i+2`, and when no value token remains the loop exits past the end and
returns `-1`); any other flag is boolean (`i+1`).  `-1` models Go's absent
sentinel. -/
def findImagePositionAux : List String → Nat → Int
  | [], _ => -1
  | arg :: rest, i =>
    if strStarts arg "-" = false then (i : Int)
    else if hasEq arg then findImagePositionAux rest (i + 1)
    else if isFlagWithValue arg then
      match rest with
      | [] => -1
      | _ :: rest2 => findImagePositionAux rest2 (i + 2)
    else findImagePositionAux rest (i + 1)

/-- Go `findImagePosition(args)`: index of the image token, or `-1`. -/
def findImagePosition (args : List String) : Int := findImagePositionAux args 0

/-- Lookup in the association-list model of a Go `map[string]string`. -/
def lookupKV : List (String × String) → String → Option String
  | [], _ => none
  | (k, v) :: rest, key => if k = key then some v else lookupKV rest key

/-- Go map assignment `m[k] = v`: replace the binding if the key is present,
otherwise add it. -/
def insertKV : List (String × String) → String → String → List (String × String)
  | [], k, v => [(k, v)]
  | (k0, v0) :: rest, k, v =>
    if k0 = k then (k, v) :: rest else (k0, v0) :: insertKV rest k v

/-- Go `strings.SplitN(s, "=", 2)` on the character list: the part before the
first `=`, and `some` remainder when a `=` occurs. -/
def splitFirstEq : List Char → List Char × Option (List Char)
  | [] => ([], none)
  | c :: cs =>
    if c = '=' then ([], some cs)
    else
      let r := splitFirstEq cs
      (c :: r.1, r.2)

/-- The recording step of `extractUserEnvVars`: when the recovered payload
`envVal` is non-empty, split it on the first `=` and store key/value (a
payload with no `=` stores the empty value); an empty payload stores
nothing. -/
def recordEnvVal (result : List (String × String)) (envVal : String) :
    List (String × String) :=
  if envVal = "" then result
  else
    match splitFirstEq envVal.data with
    | (k, some v) => insertKV result (String.mk k) (String.mk v)
    | (k, none) => insertKV result (String.mk k) ""

/-- The loop of `extractUserEnvVars`: `-e`/`--env` consume the next token as
payload (when one exists; a trailing `-e` leaves the payload empty),
`-e=...`/`--env=...` carry it inline, and every other token is skipped. -/
def extractUserEnvVarsAux : List String → List (String × String) →
    List (String × String)
  | [], result => result
  | arg :: rest, result =>
    if arg = "-e" ∨ arg = "--env" then
      match rest with
      | [] => result
      | nxt :: rest2 => extractUserEnvVarsAux rest2 (recordEnvVal result nxt)
    else if strStarts arg "-e=" then
      extractUserEnvVarsAux rest (recordEnvVal result (strAfter arg 3))
    else if strStarts arg "--env=" then
      extractUserEnvVarsAux rest (recordEnvVal result (strAfter arg 6))
    else
      extractUserEnvVarsAux rest result

/-- Go `extractUserEnvVars(args)`. -/
def extractUserEnvVars (args : List String) : List (String × String) :=
  extractUserEnvVarsAux args []

/-- The injection loop of `runDockerRun`: for each secret in iteration order,
append `-e KEY=VALUE` unless the key was set by the user. -/
def buildEnvFlags (secrets userEnvVars : List (String × String)) : List String :=
  match secrets with
  | [] => []
  | (k, v) :: rest =>
    if (lookupKV userEnvVars k).isNone then
      "-e" :: (k ++ "=" ++ v) :: buildEnvFlags rest userEnvVars
    else buildEnvFlags rest userEnvVars

/-- The injection loop of the compose `run` branch: append `-e KEY=VALUE`
for every secret, with no filtering against user overrides. -/
def buildAllEnvFlags : List (String × String) → List String
  | [] => []
  | (k, v) :: rest => "-e" :: (k ++ "=" ++ v) :: buildAllEnvFlags rest

/-- A call to the process runner `RunCommand(exe, args, envOverrides)`. -/
structure RunCall where
  exe : String
  args : List String
  envOverrides : Option (List (String × String))
deriving DecidableEq, Repr

/-- Go `runDockerRun`: build the rewritten vector around the located image
position and call the runner with a nil environment map. -/
def runDockerRun (dockerCommand : String) (args : List String)
    (secrets : List (String × String)) : RunCall :=
  let userEnvVars := extractUserEnvVars args
  let imagePos := findImagePosition args
  let newArgs :=
    if imagePos ≥ 0 then
      dockerCommand ::
        (args.take imagePos.toNat ++ buildEnvFlags secrets userEnvVars ++
          args.drop imagePos.toNat)
    else
      dockerCommand :: (buildEnvFlags secrets userEnvVars ++ args)
  { exe := "docker", args := newArgs, envOverrides := none }

/-- Result of `runDockerCompose`: either an error before launch, or a runner
call together with the temp env file (path and content) when one was
created. -/
inductive ComposeOutcome where
  | failed (errMsg : String)
  | launched (call : RunCall) (envFile : Option (String × String))
deriving DecidableEq, Repr

/-- Content of the temp env file: one `KEY=VALUE` line per secret whose
`fmt.Fprintf` succeeded (the Go code discards the write error, so a failed
line is simply missing). -/
def envFileContent (secrets : List (String × String)) (writeOk : String → Bool) :
    String :=
  String.join ((secrets.filter (fun kv => writeOk kv.1)).map
    (fun kv => kv.1 ++ "=" ++ kv.2 ++ "\n"))

/-- The lower half of `runDockerCompose` (reached when the first token is not
`run`): with secrets present, create the temp file — aborting with the
wrapped error if creation fails — write the lines, and anchor
`--env-file <path>` right after `compose`; with no secrets, pass the
arguments through. -/
def composeEnvFileBranch (dockerArgs : List String)
    (secrets : List (String × String)) (createTemp : Except String String)
    (writeOk : String → Bool) : ComposeOutcome :=
  if secrets.length > 0 then
    match createTemp with
    | .error e => .failed ("failed to create temp env file: " ++ e)
    | .ok path =>
      .launched
        { exe := "docker", args := "compose" :: "--env-file" :: path :: dockerArgs,
          envOverrides := none }
        (some (path, envFileContent secrets writeOk))
  else
    .launched { exe := "docker", args := "compose" :: dockerArgs, envOverrides := none }
      none

/-- Go `runDockerCompose`: the `run` sub-subcommand gets inline `-e` flags
for every secret (no temp file); everything else goes through the env-file
branch. -/
def runDockerCompose (dockerArgs : List String) (secrets : List (String × String))
    (createTemp : Except String String) (writeOk : String → Bool) : ComposeOutcome :=
  match dockerArgs with
  | first :: rest =>
    if first = "run" then
      .launched
        { exe := "docker",
          args := "compose" :: "run" :: (buildAllEnvFlags secrets ++ rest),
          envOverrides := none }
        none
    else composeEnvFileBranch (first :: rest) secrets createTemp writeOk
  | [] => composeEnvFileBranch [] secrets createTemp writeOk

/-! Spec-side definitions, phrased from the specification's words, used to
compare the source loops against the spec's formulas. -/

/-- Modelled from the spec: `EffectiveInjectionSet = SecretSet \ keys(OverrideSet)`. -/
def effectiveInjectionSet (secretSet overrideSet : List (String × String)) :
    List (String × String) :=
  secretSet.filter (fun kv => (lookupKV overrideSet kv.1).isNone)

/-- Modelled from the spec: `flatten(S as "-e KEY=VALUE" pairs)`. -/
def flattenEnvPairs (s : List (String × String)) : List String :=
  (s.map (fun kv => ["-e", kv.1 ++ "=" ++ kv.2])).flatten

/-- Modelled from the spec: the env file holds one newline-terminated
`KEY=VALUE` line per secret, no quoting or escaping. -/
def specEnvFileLines (secrets : List (String × String)) : String :=
  String.join (secrets.map (fun kv => kv.1 ++ "=" ++ kv.2 ++ "\n"))

/-- Modelled from the spec: a token segment made up entirely of flags and
their consumed values — each token is an inline `--flag=value`, a
value-consuming flag paired with its following value token, or a boolean
flag. -/
inductive FlagsOnly : List String → Prop where
  | nil : FlagsOnly []
  | inline (a : String) (rest : List String) :
      strStarts a "-" = true → hasEq a = true → FlagsOnly rest →
      FlagsOnly (a :: rest)
  | withValue (a b : String) (rest : List String) :
      strStarts a "-" = true → hasEq a = false → isFlagWithValue a = true →
      FlagsOnly rest → FlagsOnly (a :: b :: rest)
  | boolean (a : String) (rest : List String) :
      strStarts a "-" = true → hasEq a = false → isFlagWithValue a = false →
      FlagsOnly rest → FlagsOnly (a :: rest)

/-- Number of adjacent occurrences of the token pair `(x, y)` in a vector. -/
def countPair : List String → String → String → Nat
  | [], _, _ => 0
  | [_], _, _ => 0
  | a :: b :: rest, x, y =>
    (if a = x ∧ b = y then 1 else 0) + countPair (b :: rest) x y

/-! Helper lemmas about the classifier walk. -/

/-- Step equation: a token not starting with `-` is the image. -/
theorem aux_step_image (a : String) (rest : List String) (i : Nat)
    (h : strStarts a "-" = false) :
    findImagePositionAux (a :: rest) i = (i : Int) := by
  rw [findImagePositionAux.eq_def]
  simp [h]

/-- Step equation: a flag containing `=` advances the cursor by one. -/
theorem aux_step_inline (a : String) (rest : List String) (i : Nat)
    (h1 : strStarts a "-" = true) (h2 : hasEq a = true) :
    findImagePositionAux (a :: rest) i = findImagePositionAux rest (i + 1) := by
  rw [findImagePositionAux.eq_def]
  simp [h1, h2]

/-- Step equation: a value-consuming flag skips itself and its value. -/
theorem aux_step_value (a b : String) (rest : List String) (i : Nat)
    (h1 : strStarts a "-" = true) (h2 : hasEq a = false)
    (h3 : isFlagWithValue a = true) :
    findImagePositionAux (a :: b :: rest) i = findImagePositionAux rest (i + 2) := by
  rw [findImagePositionAux.eq_def]
  simp [h1, h2, h3]

/-- Step equation: a trailing value-consuming flag pushes the cursor past the
end, so the walk reports absent. -/
theorem aux_step_value_end (a : String) (i : Nat)
    (h1 : strStarts a "-" = true) (h2 : hasEq a = false)
    (h3 : isFlagWithValue a = true) :
    findImagePositionAux [a] i = -1 := by
  rw [findImagePositionAux.eq_def]
  simp [h1, h2, h3]

/-- Step equation: any other flag is boolean and advances the cursor by one. -/
theorem aux_step_boolean (a : String) (rest : List String) (i : Nat)
    (h1 : strStarts a "-" = true) (h2 : hasEq a = false)
    (h3 : isFlagWithValue a = false) :
    findImagePositionAux (a :: rest) i = findImagePositionAux rest (i + 1) := by
  rw [findImagePositionAux.eq_def]
  simp [h1, h2, h3]

/-- The walk never returns an index below its starting cursor. -/
theorem aux_ge (args : List String) (i0 : Nat) (r : Nat)
    (h : findImagePositionAux args i0 = (r : Int)) : i0 ≤ r := by
  induction args, i0 using findImagePositionAux.induct generalizing r with
  | case1 i => simp [findImagePositionAux] at h
  | case2 a rest i ha =>
    rw [aux_step_image a rest i ha] at h
    omega
  | case3 a rest i ha hb ih =>
    rw [aux_step_inline a rest i (by simpa using ha) hb] at h
    have := ih r h
    omega
  | case4 a i ha hb hc =>
    rw [aux_step_value_end a i (by simpa using ha) (by simpa using hb) hc] at h
    simp at h
  | case5 a i ha hb hc b rest2 ih =>
    rw [aux_step_value a b rest2 i (by simpa using ha) (by simpa using hb) hc] at h
    have := ih r h
    omega
  | case6 a rest i ha hb hc ih =>
    rw [aux_step_boolean a rest i (by simpa using ha) (by simpa using hb)
      (by simpa using hc)] at h
    have := ih r h
    omega

/-- When every token starts with `-`, the walk can never return an index. -/
theorem aux_all_flags (args : List String) (i : Nat)
    (h : ∀ a ∈ args, strStarts a "-" = true) :
    findImagePositionAux args i = -1 := by
  induction args, i using findImagePositionAux.induct with
  | case1 i => simp [findImagePositionAux]
  | case2 a rest i ha =>
    have := h a (by simp)
    rw [this] at ha
    simp at ha
  | case3 a rest i ha hb ih =>
    rw [aux_step_inline a rest i (by simpa using ha) hb]
    exact ih fun x hx => h x (by simp [hx])
  | case4 a i ha hb hc =>
    exact aux_step_value_end a i (by simpa using ha) (by simpa using hb) hc
  | case5 a i ha hb hc b rest2 ih =>
    rw [aux_step_value a b rest2 i (by simpa using ha) (by simpa using hb) hc]
    exact ih fun x hx => h x (by simp [hx])
  | case6 a rest i ha hb hc ih =>
    rw [aux_step_boolean a rest i (by simpa using ha) (by simpa using hb)
      (by simpa using hc)]
    exact ih fun x hx => h x (by simp [hx])

/-- A returned index points inside the sequence, at a non-flag token, and the
segment before it consists entirely of flags and their consumed values. -/
theorem aux_invariant (args : List String) (i0 : Nat) (r : Nat)
    (h : findImagePositionAux args i0 = (r : Int)) :
    r - i0 < args.length ∧ strStarts (args.getD (r - i0) "") "-" = false ∧
      FlagsOnly (args.take (r - i0)) := by
  induction args, i0 using findImagePositionAux.induct generalizing r with
  | case1 i => simp [findImagePositionAux] at h
  | case2 a rest i ha =>
    rw [aux_step_image a rest i ha] at h
    have hir : i = r := by exact_mod_cast h
    subst hir
    simp [ha, FlagsOnly.nil]
  | case3 a rest i ha hb ih =>
    rw [aux_step_inline a rest i (by simpa using ha) hb] at h
    have hge := aux_ge rest (i + 1) r h
    obtain ⟨h1, h2, h3⟩ := ih r h
    have hd : r - i = (r - (i + 1)) + 1 := by omega
    refine ⟨by simp; omega, ?_, ?_⟩
    · rw [hd]; simpa using h2
    · rw [hd]
      rw [List.take_succ_cons]
      exact FlagsOnly.inline a _ (by simpa using ha) hb h3
  | case4 a i ha hb hc =>
    rw [aux_step_value_end a i (by simpa using ha) (by simpa using hb) hc] at h
    simp at h
  | case5 a i ha hb hc b rest2 ih =>
    rw [aux_step_value a b rest2 i (by simpa using ha) (by simpa using hb) hc] at h
    have hge := aux_ge rest2 (i + 2) r h
    obtain ⟨h1, h2, h3⟩ := ih r h
    have hd : r - i = (r - (i + 2)) + 2 := by omega
    refine ⟨by simp; omega, ?_, ?_⟩
    · rw [hd]; simpa using h2
    · rw [hd]
      rw [List.take_succ_cons, List.take_succ_cons]
      exact FlagsOnly.withValue a b _ (by simpa using ha) (by simpa using hb) hc h3
  | case6 a rest i ha hb hc ih =>
    rw [aux_step_boolean a rest i (by simpa using ha) (by simpa using hb)
      (by simpa using hc)] at h
    have hge := aux_ge rest (i + 1) r h
    obtain ⟨h1, h2, h3⟩ := ih r h
    have hd : r - i = (r - (i + 1)) + 1 := by omega
    refine ⟨by simp; omega, ?_, ?_⟩
    · rw [hd]; simpa using h2
    · rw [hd]
      rw [List.take_succ_cons]
      exact FlagsOnly.boolean a _ (by simpa using ha) (by simpa using hb)
        (by simpa using hc) h3

/-! Helper lemmas about the merge loops, the extractor's splitting step and
the env-file content. -/

/-- The run-mode injection loop computes exactly the spec's
`flatten(EffectiveInjectionSet)`. -/
theorem buildEnvFlags_eq (secrets userEnv : List (String × String)) :
    buildEnvFlags secrets userEnv = flattenEnvPairs (effectiveInjectionSet secrets userEnv) := by
  induction secrets with
  | nil => rfl
  | cons kv rest ih =>
    obtain ⟨k, v⟩ := kv
    by_cases h : (lookupKV userEnv k).isNone
    · simp [buildEnvFlags, effectiveInjectionSet, flattenEnvPairs, h,
        List.filter_cons] at ih ⊢
      exact ih
    · simp [buildEnvFlags, effectiveInjectionSet, flattenEnvPairs, h,
        List.filter_cons] at ih ⊢
      exact ih

theorem buildAllEnvFlags_eq (secrets : List (String × String)) :
    buildAllEnvFlags secrets = flattenEnvPairs secrets := by
  induction secrets with
  | nil => rfl
  | cons kv rest ih =>
    obtain ⟨k, v⟩ := kv
    simp [buildAllEnvFlags, flattenEnvPairs] at ih ⊢
    exact ih

theorem lookupKV_insertKV_self (m : List (String × String)) (k v : String) :
    lookupKV (insertKV m k v) k = some v := by
  induction m with
  | nil => simp [insertKV, lookupKV]
  | cons kv rest ih =>
    obtain ⟨k0, v0⟩ := kv
    by_cases h : k0 = k
    · simp [insertKV, lookupKV, h]
    · simp [insertKV, lookupKV, h, ih]

theorem splitFirstEq_no_eq (ks : List Char) (h : ks.contains '=' = false) :
    splitFirstEq ks = (ks, none) := by
  induction ks with
  | nil => rfl
  | cons c cs ih =>
    simp [List.contains_cons] at h
    obtain ⟨h1, h2⟩ := h
    simp [splitFirstEq, Ne.symm h1, ih (by simpa using h2)]

theorem splitFirstEq_append (ks vs : List Char) (h : ks.contains '=' = false) :
    splitFirstEq (ks ++ '=' :: vs) = (ks, some vs) := by
  induction ks with
  | nil => simp [splitFirstEq]
  | cons c cs ih =>
    simp [List.contains_cons] at h
    obtain ⟨h1, h2⟩ := h
    simp [splitFirstEq, Ne.symm h1, ih (by simpa using h2)]

theorem recordEnvVal_pair (m : List (String × String)) (k v : String)
    (h : hasEq k = false) :
    recordEnvVal m (k ++ "=" ++ v) = insertKV m k v := by
  have hdata : (k ++ "=" ++ v).data = k.data ++ '=' :: v.data := by
    simp [String.data_append]
  have hne : (k ++ "=" ++ v) ≠ "" := by
    intro hc
    have := congrArg String.data hc
    simp [hdata] at this
  rw [recordEnvVal, if_neg hne, hdata, splitFirstEq_append k.data v.data (by simpa [hasEq] using h)]

theorem recordEnvVal_no_eq (m : List (String × String)) (k : String)
    (hne : k ≠ "") (h : hasEq k = false) :
    recordEnvVal m k = insertKV m k "" := by
  rw [recordEnvVal, if_neg hne, splitFirstEq_no_eq k.data (by simpa [hasEq] using h)]

theorem envFileContent_all_ok (secrets : List (String × String))
    (writeOk : String → Bool) (h : ∀ kv ∈ secrets, writeOk kv.1 = true) :
    envFileContent secrets writeOk = specEnvFileLines secrets := by
  unfold envFileContent specEnvFileLines
  congr 1
  congr 1
  exact List.filter_eq_self.mpr h

/-- The walk returns either the absent sentinel or a non-negative index. -/
theorem aux_total (args : List String) (i : Nat) :
    findImagePositionAux args i = -1 ∨ 0 ≤ findImagePositionAux args i := by
  induction args, i using findImagePositionAux.induct with
  | case1 i => left; rfl
  | case2 a rest i ha =>
    right
    rw [aux_step_image a rest i ha]
    exact Int.ofNat_nonneg i
  | case3 a rest i ha hb ih =>
    rw [aux_step_inline a rest i (by simpa using ha) hb]
    exact ih
  | case4 a i ha hb hc =>
    left
    exact aux_step_value_end a i (by simpa using ha) (by simpa using hb) hc
  | case5 a i ha hb hc b rest2 ih =>
    rw [aux_step_value a b rest2 i (by simpa using ha) (by simpa using hb) hc]
    exact ih
  | case6 a rest i ha hb hc ih =>
    rw [aux_step_boolean a rest i (by simpa using ha) (by simpa using hb)
      (by simpa using hc)]
    exact ih

/-- Unfolding equation for the argument vector built by `runDockerRun`. -/
theorem runDockerRun_args (sub : String) (args : List String)
    (secrets : List (String × String)) :
    (runDockerRun sub args secrets).args =
      if findImagePosition args ≥ 0 then
        sub :: (args.take (findImagePosition args).toNat ++
          buildEnvFlags secrets (extractUserEnvVars args) ++
          args.drop (findImagePosition args).toNat)
      else sub :: (buildEnvFlags secrets (extractUserEnvVars args) ++ args) := rfl

/-! Claim theorems. -/

/-- C1.  Run mode: with an image position present the built vector is
`[subcommand] ++ args[0:pos] ++ flatten(EffectiveInjectionSet) ++ args[pos:]`
(injected flags strictly between the caller's pre-image options and the image
token, image suffix untouched); with no image position it is
`[subcommand] ++ flatten(EffectiveInjectionSet) ++ args`; and the process
runner receives a nil environment-override map either way. -/
theorem run_mode_argument_vector (sub : String) (args : List String)
    (secrets : List (String × String)) :
    (findImagePosition args ≥ 0 →
      (runDockerRun sub args secrets).args =
        sub :: (args.take (findImagePosition args).toNat ++
          flattenEnvPairs (effectiveInjectionSet secrets (extractUserEnvVars args)) ++
          args.drop (findImagePosition args).toNat))
    ∧ (findImagePosition args < 0 →
      (runDockerRun sub args secrets).args =
        sub :: (flattenEnvPairs (effectiveInjectionSet secrets (extractUserEnvVars args)) ++
          args))
    ∧ (runDockerRun sub args secrets).envOverrides = none
    ∧ (runDockerRun sub args secrets).exe = "docker" := by
  refine ⟨?_, ?_, rfl, rfl⟩
  · intro h
    rw [runDockerRun_args, if_pos h, buildEnvFlags_eq]
  · intro h
    rw [runDockerRun_args, if_neg (by omega), buildEnvFlags_eq]

theorem run_mode_argument_vector_witness :
    (findImagePosition ["-p", "8080:8080", "myapp:latest"] ≥ 0 ∧
      (runDockerRun "run" ["-p", "8080:8080", "myapp:latest"] [("A", "1")]).args =
        "run" :: (List.take (findImagePosition ["-p", "8080:8080", "myapp:latest"]).toNat
            ["-p", "8080:8080", "myapp:latest"] ++
          flattenEnvPairs (effectiveInjectionSet [("A", "1")]
            (extractUserEnvVars ["-p", "8080:8080", "myapp:latest"])) ++
          List.drop (findImagePosition ["-p", "8080:8080", "myapp:latest"]).toNat
            ["-p", "8080:8080", "myapp:latest"])) ∧
    (findImagePosition ["-d", "--rm"] < 0 ∧
      (runDockerRun "run" ["-d", "--rm"] [("A", "1")]).args =
        "run" :: (flattenEnvPairs (effectiveInjectionSet [("A", "1")]
          (extractUserEnvVars ["-d", "--rm"])) ++ ["-d", "--rm"])) :=
  ⟨⟨by decide,
    (run_mode_argument_vector "run" ["-p", "8080:8080", "myapp:latest"] [("A", "1")]).1
      (by decide)⟩,
   ⟨by decide,
    (run_mode_argument_vector "run" ["-d", "--rm"] [("A", "1")]).2.1 (by decide)⟩⟩

/-- C2.  Run-mode precedence: the injection loop emits exactly the secrets
whose key is absent from the user override set (the spec's
`EffectiveInjectionSet`), and on the spec's concrete example the built vector
has exactly one `-e API_KEY=user`, one `-e OTHER=o` and no `-e API_KEY=v`. -/
theorem run_mode_override_precedence :
    (∀ (secrets : List (String × String)) (args : List String),
      buildEnvFlags secrets (extractUserEnvVars args) =
        flattenEnvPairs (effectiveInjectionSet secrets (extractUserEnvVars args)))
    ∧ countPair (runDockerRun "run" ["-e", "API_KEY=user", "myapp:latest"]
        [("API_KEY", "v"), ("OTHER", "o")]).args "-e" "API_KEY=user" = 1
    ∧ countPair (runDockerRun "run" ["-e", "API_KEY=user", "myapp:latest"]
        [("API_KEY", "v"), ("OTHER", "o")]).args "-e" "OTHER=o" = 1
    ∧ countPair (runDockerRun "run" ["-e", "API_KEY=user", "myapp:latest"]
        [("API_KEY", "v"), ("OTHER", "o")]).args "-e" "API_KEY=v" = 0 :=
  ⟨fun secrets args => buildEnvFlags_eq secrets (extractUserEnvVars args),
   by decide, by decide, by decide⟩

/-- C3.  The classifier walk: it returns the cursor at the first non-flag
token, advances by one over inline `--flag=value` tokens and boolean flags,
advances by two over a value-consuming flag and its value (whatever that
value token looks like), reports absent on the empty sequence, when a
trailing value-consuming flag pushes the cursor past the end, and on every
sequence consisting solely of flag tokens. -/
theorem locate_image_walk :
    findImagePosition [] = -1
    ∧ (∀ args : List String, (∀ a ∈ args, strStarts a "-" = true) →
        findImagePosition args = -1)
    ∧ (∀ (a : String) (rest : List String) (i : Nat), strStarts a "-" = false →
        findImagePositionAux (a :: rest) i = (i : Int))
    ∧ (∀ (a : String) (rest : List String) (i : Nat),
        strStarts a "-" = true → hasEq a = true →
        findImagePositionAux (a :: rest) i = findImagePositionAux rest (i + 1))
    ∧ (∀ (a b : String) (rest : List String) (i : Nat),
        strStarts a "-" = true → hasEq a = false → isFlagWithValue a = true →
        findImagePositionAux (a :: b :: rest) i = findImagePositionAux rest (i + 2))
    ∧ (∀ (a : String) (i : Nat),
        strStarts a "-" = true → hasEq a = false → isFlagWithValue a = true →
        findImagePositionAux [a] i = -1)
    ∧ (∀ (a : String) (rest : List String) (i : Nat),
        strStarts a "-" = true → hasEq a = false → isFlagWithValue a = false →
        findImagePositionAux (a :: rest) i = findImagePositionAux rest (i + 1)) :=
  ⟨rfl, fun args h => aux_all_flags args 0 h, aux_step_image, aux_step_inline,
   aux_step_value, aux_step_value_end, aux_step_boolean⟩

theorem locate_image_walk_witness :
    findImagePosition ["-d", "--rm"] = -1 ∧
    findImagePositionAux ["-p", "8080:8080", "img"] 0 =
      findImagePositionAux ["img"] (0 + 2) :=
  ⟨locate_image_walk.2.1 ["-d", "--rm"] (by decide),
   locate_image_walk.2.2.2.2.1 "-p" "8080:8080" ["img"] 0 (by decide) (by decide)
     (by decide)⟩

/-- C4.  ImagePosition invariant: a present position is a valid index, the
token there is not a flag, every earlier token is a flag or the consumed
value of a value-consuming flag (so the position is the first such token),
and a sequence beginning with a non-flag token yields position 0. -/
theorem image_position_invariant :
    (∀ (args : List String) (r : Nat), findImagePosition args = (r : Int) →
      r < args.length ∧ strStarts (args.getD r "") "-" = false ∧
        FlagsOnly (args.take r))
    ∧ (∀ (a : String) (rest : List String), strStarts a "-" = false →
        findImagePosition (a :: rest) = 0) := by
  constructor
  · intro args r h
    have := aux_invariant args 0 r h
    simpa using this
  · intro a rest h
    exact aux_step_image a rest 0 h

theorem image_position_invariant_witness :
    ((2 : Nat) < (["-p", "8080:8080", "myapp:latest"] : List String).length ∧
      strStarts ((["-p", "8080:8080", "myapp:latest"] : List String).getD 2 "") "-"
        = false ∧
      FlagsOnly ((["-p", "8080:8080", "myapp:latest"] : List String).take 2)) ∧
    findImagePosition ["alpine"] = 0 :=
  ⟨image_position_invariant.1 ["-p", "8080:8080", "myapp:latest"] 2 (by decide),
   image_position_invariant.2 "alpine" [] (by decide)⟩

/-- C5.  The override extractor recovers `FOO ↦ bar` from all four
environment-flag forms, splits a payload on its first `=` only (so values may
contain `=`), records a payload with no `=` under the empty value, and a
repeated key keeps the last occurrence's value (Go map assignment). -/
theorem extract_overrides_forms :
    (extractUserEnvVars ["-e", "FOO=bar"] = [("FOO", "bar")]
      ∧ extractUserEnvVars ["--env", "FOO=bar"] = [("FOO", "bar")]
      ∧ extractUserEnvVars ["-e=FOO=bar"] = [("FOO", "bar")]
      ∧ extractUserEnvVars ["--env=FOO=bar"] = [("FOO", "bar")])
    ∧ (∀ k v : String, hasEq k = false →
        extractUserEnvVars ["-e", k ++ "=" ++ v] = [(k, v)])
    ∧ (∀ k : String, k ≠ "" → hasEq k = false →
        extractUserEnvVars ["-e", k] = [(k, "")])
    ∧ (∀ (m : List (String × String)) (k v : String),
        lookupKV (insertKV m k v) k = some v)
    ∧ extractUserEnvVars ["-e", "K=1", "--env", "K=2"] = [("K", "2")]
    ∧ extractUserEnvVars ["-e", "URL=http://x.com?a=b"] =
        [("URL", "http://x.com?a=b")]
    ∧ (∀ (a : String) (rest : List String) (m : List (String × String)),
        ¬(a = "-e" ∨ a = "--env") → strStarts a "-e=" = false →
        strStarts a "--env=" = false →
        extractUserEnvVarsAux (a :: rest) m = extractUserEnvVarsAux rest m) := by
  refine ⟨⟨by decide, by decide, by decide, by decide⟩, ?_, ?_,
    lookupKV_insertKV_self, by decide, by decide, ?_⟩
  · intro k v h
    have h1 : extractUserEnvVars ["-e", k ++ "=" ++ v] =
        recordEnvVal [] (k ++ "=" ++ v) := rfl
    rw [h1, recordEnvVal_pair [] k v h]
    rfl
  · intro k hne h
    have h1 : extractUserEnvVars ["-e", k] = recordEnvVal [] k := rfl
    rw [h1, recordEnvVal_no_eq [] k hne h]
    rfl
  · intro a rest m h1 h2 h3
    rw [extractUserEnvVarsAux.eq_def]
    simp [h1, h2, h3]

theorem extract_overrides_forms_witness :
    extractUserEnvVars ["-e", "AB" ++ "=" ++ "x=y"] = [("AB", "x=y")] ∧
    extractUserEnvVars ["-e", "SOLO"] = [("SOLO", "")] :=
  ⟨extract_overrides_forms.2.1 "AB" "x=y" (by decide),
   extract_overrides_forms.2.2.1 "SOLO" (by decide) (by decide)⟩

/-- C6.  Compose `run` mode: the built vector is `compose run` followed by a
`-e KEY=VALUE` pair for every secret — the user override set is never
consulted — then the caller's remaining tokens; the runner gets a nil
environment map and no temp file is created (the outcome carries no env file
and is the same for every temp-creation result). -/
theorem compose_run_injects_every_secret (rest : List String)
    (secrets : List (String × String)) (createTemp : Except String String)
    (writeOk : String → Bool) :
    runDockerCompose ("run" :: rest) secrets createTemp writeOk =
      ComposeOutcome.launched
        { exe := "docker",
          args := "compose" :: "run" :: (flattenEnvPairs secrets ++ rest),
          envOverrides := none }
        none := by
  simp [runDockerCompose, buildAllEnvFlags_eq]

/-- C7.  Compose non-`run` mode: with a non-empty secret set (and successful
writes) the vector is `compose --env-file <path>` followed by the original
arguments and the file holds one newline-terminated `KEY=VALUE` line per
secret; with an empty secret set the original vector passes through
unchanged and no temp file is created. -/
theorem compose_env_file_mode (first : String) (rest : List String)
    (secrets : List (String × String)) (path : String) (writeOk : String → Bool)
    (hfirst : first ≠ "run") :
    ((∀ kv ∈ secrets, writeOk kv.1 = true) → secrets ≠ [] →
      runDockerCompose (first :: rest) secrets (Except.ok path) writeOk =
        ComposeOutcome.launched
          { exe := "docker",
            args := "compose" :: "--env-file" :: path :: first :: rest,
            envOverrides := none }
          (some (path, specEnvFileLines secrets)))
    ∧ (∀ createTemp : Except String String, secrets = [] →
        runDockerCompose (first :: rest) secrets createTemp writeOk =
          ComposeOutcome.launched
            { exe := "docker", args := "compose" :: first :: rest,
              envOverrides := none }
            none) := by
  constructor
  · intro hw hne
    have hlen : 0 < secrets.length := List.length_pos.mpr hne
    simp [runDockerCompose, hfirst, composeEnvFileBranch, hlen,
      envFileContent_all_ok secrets writeOk hw]
  · intro createTemp hsec
    subst hsec
    simp [runDockerCompose, hfirst, composeEnvFileBranch]

theorem compose_env_file_mode_witness :
    runDockerCompose ["up"] [("A", "1")] (Except.ok "/tmp/x.env") (fun _ => true) =
      ComposeOutcome.launched
        { exe := "docker", args := ["compose", "--env-file", "/tmp/x.env", "up"],
          envOverrides := none }
        (some ("/tmp/x.env", specEnvFileLines [("A", "1")])) :=
  (compose_env_file_mode "up" [] [("A", "1")] "/tmp/x.env" (fun _ => true)
    (by decide)).1 (by intro kv hkv; rfl) (by decide)

/-- C8.  The code evaluated at the claim's failing input: when the temp file
is created but the single `fmt.Fprintf` write fails, the write error is
discarded and the external process is still launched, with the env file
content empty — the abort the claim (and spec §7) requires does not happen;
only temp-file creation failure aborts with the wrapped error. -/
theorem compose_write_error_ignored :
    runDockerCompose ["up"] [("A", "1")] (Except.ok "/tmp/keyway-env-1.env")
        (fun _ => false) =
      ComposeOutcome.launched
        { exe := "docker",
          args := ["compose", "--env-file", "/tmp/keyway-env-1.env", "up"],
          envOverrides := none }
        (some ("/tmp/keyway-env-1.env", ""))
    ∧ runDockerCompose ["up"] [("A", "1")] (Except.error "disk full")
        (fun _ => true) =
      ComposeOutcome.failed "failed to create temp env file: disk full" :=
  ⟨by decide, by decide⟩

/-- C9.  Totality and graceful degradation: the classifier always returns the
sentinel or a non-negative index; a token that is not an environment flag is
skipped without effect; a payload with no `=` is recorded with the empty
value; a trailing `-e`/`--env` with no following value token leaves the
override set unchanged; and a trailing value-consuming flag makes the
classifier report absent rather than read out of bounds. -/
theorem parsing_total_and_graceful :
    (∀ args : List String,
      findImagePosition args = -1 ∨ 0 ≤ findImagePosition args)
    ∧ (∀ (a : String) (rest : List String) (m : List (String × String)),
        ¬(a = "-e" ∨ a = "--env") → strStarts a "-e=" = false →
        strStarts a "--env=" = false →
        extractUserEnvVarsAux (a :: rest) m = extractUserEnvVarsAux rest m)
    ∧ (∀ k : String, k ≠ "" → hasEq k = false →
        extractUserEnvVars ["-e", k] = [(k, "")])
    ∧ (∀ m : List (String × String),
        extractUserEnvVarsAux ["-e"] m = m ∧ extractUserEnvVarsAux ["--env"] m = m)
    ∧ (∀ i : Nat, findImagePositionAux ["-e"] i = -1 ∧
        findImagePositionAux ["--env"] i = -1) := by
  refine ⟨fun args => aux_total args 0, ?_, ?_, ?_, ?_⟩
  · intro a rest m h1 h2 h3
    rw [extractUserEnvVarsAux.eq_def]
    simp [h1, h2, h3]
  · intro k hne h
    have h1 : extractUserEnvVars ["-e", k] = recordEnvVal [] k := rfl
    rw [h1, recordEnvVal_no_eq [] k hne h]
    rfl
  · intro m
    exact ⟨rfl, rfl⟩
  · intro i
    exact ⟨rfl, rfl⟩

theorem parsing_total_and_graceful_witness :
    extractUserEnvVarsAux ["--rm", "-e", "PATH"] [] =
      extractUserEnvVarsAux ["-e", "PATH"] [] ∧
    extractUserEnvVars ["-e", "PATH"] = [("PATH", "")] :=
  ⟨parsing_total_and_graceful.2.1 "--rm" ["-e", "PATH"] [] (by decide) (by decide)
     (by decide),
   parsing_total_and_graceful.2.2.1 "PATH" (by decide) (by decide)⟩

/-- C10.  Edge cases: a compose invocation with no tokens after `compose` and
a non-empty secret set takes the env-file branch with all secrets in the
file; and an environment flag with an empty payload (`-e=`, `--env=`, or a
trailing `-e`/`--env`) contributes no override entry at all. -/
theorem compose_empty_args_and_empty_payloads :
    (∀ (secrets : List (String × String)) (path : String) (writeOk : String → Bool),
      secrets ≠ [] → (∀ kv ∈ secrets, writeOk kv.1 = true) →
      runDockerCompose [] secrets (Except.ok path) writeOk =
        ComposeOutcome.launched
          { exe := "docker", args := ["compose", "--env-file", path],
            envOverrides := none }
          (some (path, specEnvFileLines secrets)))
    ∧ extractUserEnvVars ["-e="] = []
    ∧ extractUserEnvVars ["--env="] = []
    ∧ extractUserEnvVars ["-e"] = []
    ∧ extractUserEnvVars ["--env"] = [] := by
  refine ⟨?_, by decide, by decide, rfl, rfl⟩
  intro secrets path writeOk hne hw
  have hlen : 0 < secrets.length := List.length_pos.mpr hne
  simp [runDockerCompose, composeEnvFileBranch, hlen,
    envFileContent_all_ok secrets writeOk hw]

theorem compose_empty_args_and_empty_payloads_witness :
    runDockerCompose [] [("A", "1")] (Except.ok "/tmp/w.env") (fun _ => true) =
      ComposeOutcome.launched
        { exe := "docker", args := ["compose", "--env-file", "/tmp/w.env"],
          envOverrides := none }
        (some ("/tmp/w.env", specEnvFileLines [("A", "1")])) :=
  compose_empty_args_and_empty_payloads.1 [("A", "1")] "/tmp/w.env" (fun _ => true)
    (by decide) (by intro kv hkv; rfl)

end Keyway
